import Mathlib

/-!
Verification of the borgapi core: a shallow embedding of the option
serialization engine (`borgapi/options.py`), the output capture engine
(`borgapi/capture.py`) and the result synthesizer
(`borgapi/borgapi.py`), with theorems settling the specified behaviour.

Python strings are embedded as Lean `String`/`List Char`; Python `None`
and dynamic values are explicit constructors; code that can raise is
embedded with `Except`, the error string naming the Python exception.
-/

namespace Py

/-- Characters on which Python `str.splitlines` splits (verified against
CPython: 0x0a, 0x0b, 0x0c, 0x0d, 0x1c, 0x1d, 0x1e, 0x85, 0x2028, 0x2029). -/
def isLineBreak (c : Char) : Bool :=
  c = '\n' || c = '\r' || c = Char.ofNat 0x0b || c = Char.ofNat 0x0c ||
  c = Char.ofNat 0x1c || c = Char.ofNat 0x1d || c = Char.ofNat 0x1e ||
  c = Char.ofNat 0x85 || c = Char.ofNat 0x2028 || c = Char.ofNat 0x2029

/-- Characters for which Python `str.isspace` holds (the set `str.strip`
removes; verified against CPython). -/
def isSpace (c : Char) : Bool :=
  (0x9 ≤ c.toNat && c.toNat ≤ 0xd) || (0x1c ≤ c.toNat && c.toNat ≤ 0x1f) ||
  c = ' ' || c = Char.ofNat 0x85 || c = Char.ofNat 0xa0 || c = Char.ofNat 0x1680 ||
  (0x2000 ≤ c.toNat && c.toNat ≤ 0x200a) ||
  c = Char.ofNat 0x2028 || c = Char.ofNat 0x2029 || c = Char.ofNat 0x202f ||
  c = Char.ofNat 0x205f || c = Char.ofNat 0x3000

/-- Python `str.splitlines(keepends=True)` on a character list: pieces keep
their terminating break characters; `\r\n` counts as one break. -/
def splitLinesKeep (cs : List Char) : List (List Char) :=
  go [] cs
where
  go (acc : List Char) : List Char → List (List Char)
  | [] => if acc.isEmpty then [] else [acc.reverse]
  | '\r' :: '\n' :: rest => (acc.reverse ++ ['\r', '\n']) :: go [] rest
  | c :: rest =>
    if isLineBreak c then (acc.reverse ++ [c]) :: go [] rest
    else go (c :: acc) rest

/-- Python `str.splitlines()` (keepends=False): pieces without their break
characters. -/
def splitLinesDrop (cs : List Char) : List (List Char) :=
  go [] cs
where
  go (acc : List Char) : List Char → List (List Char)
  | [] => if acc.isEmpty then [] else [acc.reverse]
  | '\r' :: '\n' :: rest => acc.reverse :: go [] rest
  | c :: rest =>
    if isLineBreak c then acc.reverse :: go [] rest
    else go (c :: acc) rest

/-- Python `s.replace("\r", "\n")`. -/
def crToNl (cs : List Char) : List Char :=
  cs.map fun c => if c = '\r' then '\n' else c

/-- Python `str.rstrip()`: drop trailing whitespace characters. -/
def rstrip (cs : List Char) : List Char :=
  (cs.reverse.dropWhile isSpace).reverse

/-- String-level `str.splitlines(keepends=True)`. -/
def splitlinesKeep (s : String) : List String :=
  (splitLinesKeep s.data).map String.mk

/-- String-level `str.splitlines()`. -/
def splitlines (s : String) : List String :=
  (splitLinesDrop s.data).map String.mk

/-- String-level `str.rstrip()`. -/
def rstripS (s : String) : String :=
  String.mk (rstrip s.data)

/-- String-level `s.replace("\r", "\n")`. -/
def crToNlS (s : String) : String :=
  String.mk (crToNl s.data)

end Py

namespace Capture

/-- State of a `ListStringIO` (capture.py): the accumulated line list
`values` and the read cursor `idx`.  Between `write` calls the wrapped
StringIO buffer is always empty (each write does `seek(0); truncate()`),
so the buffer itself carries no state and is not represented. -/
structure ListStringIO where
  values : List String
  idx : Nat
deriving Repr, DecidableEq

namespace ListStringIO

/-- Fresh buffer, as built by `ListStringIO.__init__`. -/
def init : ListStringIO := ⟨[], 0⟩

/-- Per-piece transform inside `write`: `nv = v.rstrip()`, re-appending the
newline when the raw piece ended with one (`if v[-1] == "\n"`). -/
def procLine (v : List Char) : List Char :=
  let nv := Py.rstrip v
  if v.getLast? = some '\n' then nv ++ ['\n'] else nv

/-- Keep-or-drop step of `write`: the processed piece is appended only
when truthy (`if nv:`). -/
def procKeep (v : List Char) : Option String :=
  let nv := procLine v
  if nv.isEmpty then none else some (String.mk nv)

/-- The `vals` list `write` computes from the written text `s`:
`s.replace("\r", "\n").splitlines(keepends=True)`, each piece processed by
`procLine` and dropped when it becomes empty (`if nv:`). -/
def processPieces (s : String) : List String :=
  (Py.splitLinesKeep (Py.crToNl s.data)).filterMap procKeep

/-- Model of `ListStringIO.write`: append the processed pieces, merging the
first piece into the stored trailing fragment when the last stored line does
not end with a newline (`if vals and self.values and self.values[-1][-1] != "\n"`). -/
def write (st : ListStringIO) (s : String) : ListStringIO :=
  let vals := processPieces s
  match vals, st.values.getLast? with
  | v0 :: vrest, some last =>
    if last.data.getLast? ≠ some '\n' then
      { st with values := st.values.dropLast ++ (last ++ v0) :: vrest }
    else
      { st with values := st.values ++ vals }
  | _, _ => { st with values := st.values ++ vals }

/-- Model of `ListStringIO.get`: next unread line and the advanced state;
`none` models Python's `None` sentinel. -/
def get (st : ListStringIO) : Option String × ListStringIO :=
  if h : st.idx < st.values.length then
    (some (st.values.get ⟨st.idx, h⟩), { st with idx := st.idx + 1 })
  else (none, st)

/-- Model of `ListStringIO.get_all`: the stored line list, read cursor
untouched. -/
def get_all (st : ListStringIO) : List String := st.values

/-- Content of a stored line before its terminating newline, if any. -/
def bodyOf (l : String) : List Char :=
  if l.data.getLast? = some '\n' then l.data.dropLast else l.data

/-- Whether a character list carries no trailing whitespace. -/
def noTrailWs (cs : List Char) : Bool :=
  cs.getLast?.all fun c => !Py.isSpace c

/-- Well-formedness of one stored line: non-empty, and no trailing
whitespace before the optional terminating newline. -/
def goodElem (l : String) : Prop :=
  l.data ≠ [] ∧ noTrailWs (bodyOf l) = true

/-- Well-formedness of the stored line sequence: every element is a good
line and every element except possibly the last ends with a newline. -/
def WFvalues (values : List String) : Prop :=
  (∀ l ∈ values, goodElem l) ∧ ∀ l ∈ values.dropLast, l.data.getLast? = some '\n'

/-- Writes whose line breaks are all `\n` or `\r` (no vertical tab, form
feed, or other exotic Python line boundaries). -/
def tame (s : String) : Prop :=
  ∀ c ∈ s.data, Py.isLineBreak c = true → c = '\n' ∨ c = '\r'

instance (l : String) : Decidable (goodElem l) := by
  unfold goodElem; infer_instance

instance (values : List String) : Decidable (WFvalues values) := by
  unfold WFvalues; infer_instance

instance (s : String) : Decidable (tame s) := by
  unfold tame; infer_instance

end ListStringIO

/-- Model of `OutputOptions` (capture.py), with the source defaults:
`raw_bytes=False, log_lvl="warning", log_json=False`, all show/json flags
`False`. -/
structure OutputOptions where
  raw_bytes : Bool := false
  log_lvl : String := "warning"
  log_json : Bool := false
  list_show : Bool := false
  list_json : Bool := false
  stats_show : Bool := false
  stats_json : Bool := false
  repo_show : Bool := false
  repo_json : Bool := false
  prog_show : Bool := false
  prog_json : Bool := false
deriving Repr, DecidableEq

/-- Numeric values of the Python `logging` level names used by borgapi
(`logging` module constants). -/
def levelNum : String → Nat
  | "critical" => 50
  | "error" => 40
  | "warning" => 30
  | "info" => 20
  | "debug" => 10
  | _ => 0

/-- One log record: its numeric severity and its message text
(the handlers use format string `"%(message)s"`). -/
structure LogRecord where
  levelno : Nat
  msg : String
deriving Repr, DecidableEq

/-- Model of `PersistantHandler` (capture.py): collected formatted records,
read cursor, closed flag, JSON mode, and the handler's minimum level.
`__init__` hardcodes `self.setLevel("INFO")`, i.e. level 20. -/
structure PersistantHandler where
  records : List String
  idx : Nat
  closed : Bool
  json : Bool
  level : Nat
deriving Repr, DecidableEq

namespace PersistantHandler

/-- Model of `PersistantHandler.__init__`: empty record list, level set to
`INFO` (20) unconditionally. -/
def init (json : Bool) : PersistantHandler :=
  { records := [], idx := 0, closed := false, json, level := 20 }

/-- Modelled from the spec: the JSON formatting of one record.  The real
formatter is `borg.logger.JsonFormatter`, part of the external wrapped
engine and not in this repository; the spec only says records are rendered
"as structured objects".  We render a one-field JSON object carrying the
message; the handler logic below depends only on the rendering being a
non-empty string. -/
def jsonFormat (rec : LogRecord) : String :=
  "\x7b\"message\": \"" ++ rec.msg ++ "\"\x7d"

/-- Model of `PersistantHandler.emit`: format the record
(`"%(message)s"`, i.e. the message itself, in plain mode; the structured
rendering in JSON mode), rstrip it in plain mode, append it when truthy. -/
def emit (h : PersistantHandler) (rec : LogRecord) : PersistantHandler :=
  let formatted := if h.json then jsonFormat rec else rec.msg
  let formatted := if h.json then formatted else Py.rstripS formatted
  if formatted ≠ "" then { h with records := h.records ++ [formatted] } else h

/-- Model of record delivery through Python `logging`
(`Logger.callHandlers`): the handler receives the record only when
`record.levelno >= handler.level`. -/
def callHandler (h : PersistantHandler) (rec : LogRecord) : PersistantHandler :=
  if h.level ≤ rec.levelno then h.emit rec else h

/-- Model of `PersistantHandler.close`. -/
def close (h : PersistantHandler) : PersistantHandler :=
  { h with closed := true }

end PersistantHandler

/-- Model of the `OutputCapture` object's attributes (capture.py).  The
redirected in-memory streams are identified by numeric ids so that object
identity of `sys.stdout` / `sys.stderr` can be stated. -/
structure OutputCapture where
  ready : Bool
  stdout_original : Nat
  stderr_original : Nat
  cur_stdout : Nat
  cur_stderr : Nat
  list_capture : Option PersistantHandler
  stats_capture : Option PersistantHandler
  repo_capture : Option PersistantHandler
  raw : Bool
deriving Repr, DecidableEq

/-- Process-wide state seen by the capture engine: the identities of
`sys.stdout` / `sys.stderr`, a counter for allocating fresh stream objects,
and the `OutputCapture` object's own attributes. -/
structure World where
  stdout : Nat
  stderr : Nat
  nextId : Nat
  cap : OutputCapture
deriving Repr, DecidableEq

/-- Model of `OutputCapture.__call__(opts)`: allocate fresh capture
streams, save the current `sys.stdout` / `sys.stderr` as the originals,
install the capture streams, attach the requested named-channel handlers,
set `ready`.  The source has no guard: it performs all of this regardless
of the previous state. -/
def callCapture (w : World) (opts : OutputOptions) : World :=
  let outId := w.nextId
  let errId := w.nextId + 1
  { stdout := outId
    stderr := errId
    nextId := w.nextId + 2
    cap := { ready := true
             stdout_original := w.stdout
             stderr_original := w.stderr
             cur_stdout := outId
             cur_stderr := errId
             list_capture :=
               if opts.list_show then some (.init opts.list_json) else none
             stats_capture :=
               if opts.stats_show then some (.init opts.stats_json) else none
             repo_capture :=
               if opts.repo_show then some (.init opts.repo_json) else none
             raw := opts.raw_bytes } }

/-- Model of `OutputCapture.close()`: close the owned buffers and detach
the handlers (the `try` block), then — in the `finally` block, hence on
every path — restore `sys.stdout` / `sys.stderr` to the saved originals
and clear `ready`. -/
def closeCapture (w : World) : World :=
  { w with
    stdout := w.cap.stdout_original
    stderr := w.cap.stderr_original
    cap := { w.cap with
             ready := false
             list_capture := w.cap.list_capture.map PersistantHandler.close
             stats_capture := w.cap.stats_capture.map PersistantHandler.close
             repo_capture := w.cap.repo_capture.map PersistantHandler.close } }

/-- Model of the capture scope in `BorgAPIBase._run`:
`with self.output(output_options): func(args)` — `__call__` redirects the
streams, the body runs and either returns or raises, and `__exit__`
invokes `close()` on both paths, re-raising any exception (`return False`). -/
def runCapture {ε : Type} (w : World) (opts : OutputOptions)
    (body : Except ε Unit) : Except ε Unit × World :=
  let w1 := callCapture w opts
  match body with
  | .ok () => (.ok (), closeCapture w1)
  | .error e => (.error e, closeCapture w1)

/-- Concrete starting state used in examples: real stdout is stream 0,
real stderr is stream 1, the engine constructed by
`OutputCapture.__init__` (only `ready = False` is meaningful there). -/
def world0 : World :=
  { stdout := 0, stderr := 1, nextId := 10
    cap := { ready := false, stdout_original := 0, stderr_original := 0
             cur_stdout := 0, cur_stderr := 0, list_capture := none
             stats_capture := none, repo_capture := none, raw := false } }

end Capture

/-- Decidable equality for `Except` results. -/
instance {ε α : Type} [DecidableEq ε] [DecidableEq α] : DecidableEq (Except ε α)
  | .ok a, .ok b =>
    if h : a = b then .isTrue (h ▸ rfl) else .isFalse (fun hh => h (Except.ok.inj hh))
  | .error a, .error b =>
    if h : a = b then .isTrue (h ▸ rfl) else .isFalse (fun hh => h (Except.error.inj hh))
  | .ok _, .error _ => .isFalse (fun h => Except.noConfusion h)
  | .error _, .ok _ => .isFalse (fun h => Except.noConfusion h)

namespace Options

/-- Dynamic Python values stored in option fields: `None`, bools, ints,
strings, and lists. -/
inductive Val where
  | none
  | vb (b : Bool)
  | vi (n : Int)
  | vs (s : String)
  | vl (xs : List Val)
deriving Repr

mutual

/-- Decidable equality for `Val` (the `deriving` handler does not support
this nested inductive). -/
def decEqVal : (a b : Val) → Decidable (a = b)
  | .none, .none => .isTrue rfl
  | .vb a, .vb b =>
    if h : a = b then .isTrue (h ▸ rfl) else .isFalse (fun hh => h (Val.vb.inj hh))
  | .vi a, .vi b =>
    if h : a = b then .isTrue (h ▸ rfl) else .isFalse (fun hh => h (Val.vi.inj hh))
  | .vs a, .vs b =>
    if h : a = b then .isTrue (h ▸ rfl) else .isFalse (fun hh => h (Val.vs.inj hh))
  | .vl a, .vl b =>
    match decEqValList a b with
    | .isTrue h => .isTrue (h ▸ rfl)
    | .isFalse h => .isFalse (fun hh => h (Val.vl.inj hh))
  | .none, .vb _ => .isFalse (fun h => Val.noConfusion h)
  | .none, .vi _ => .isFalse (fun h => Val.noConfusion h)
  | .none, .vs _ => .isFalse (fun h => Val.noConfusion h)
  | .none, .vl _ => .isFalse (fun h => Val.noConfusion h)
  | .vb _, .none => .isFalse (fun h => Val.noConfusion h)
  | .vb _, .vi _ => .isFalse (fun h => Val.noConfusion h)
  | .vb _, .vs _ => .isFalse (fun h => Val.noConfusion h)
  | .vb _, .vl _ => .isFalse (fun h => Val.noConfusion h)
  | .vi _, .none => .isFalse (fun h => Val.noConfusion h)
  | .vi _, .vb _ => .isFalse (fun h => Val.noConfusion h)
  | .vi _, .vs _ => .isFalse (fun h => Val.noConfusion h)
  | .vi _, .vl _ => .isFalse (fun h => Val.noConfusion h)
  | .vs _, .none => .isFalse (fun h => Val.noConfusion h)
  | .vs _, .vb _ => .isFalse (fun h => Val.noConfusion h)
  | .vs _, .vi _ => .isFalse (fun h => Val.noConfusion h)
  | .vs _, .vl _ => .isFalse (fun h => Val.noConfusion h)
  | .vl _, .none => .isFalse (fun h => Val.noConfusion h)
  | .vl _, .vb _ => .isFalse (fun h => Val.noConfusion h)
  | .vl _, .vi _ => .isFalse (fun h => Val.noConfusion h)
  | .vl _, .vs _ => .isFalse (fun h => Val.noConfusion h)

/-- Decidable equality for lists of `Val`. -/
def decEqValList : (a b : List Val) → Decidable (a = b)
  | [], [] => .isTrue rfl
  | [], _ :: _ => .isFalse (fun h => List.noConfusion h)
  | _ :: _, [] => .isFalse (fun h => List.noConfusion h)
  | x :: xs, y :: ys =>
    match decEqVal x y with
    | .isFalse h1 => .isFalse (fun h => h1 (List.cons.inj h).1)
    | .isTrue h1 =>
      match decEqValList xs ys with
      | .isTrue h2 => .isTrue (h1 ▸ h2 ▸ rfl)
      | .isFalse h2 => .isFalse (fun h => h2 (List.cons.inj h).2)

end

instance : DecidableEq Val := decEqVal

mutual

/-- Python `==` on option values: `bool` compares numerically with `int`
(`False == 0`, `True == 1`), lists compare elementwise. -/
def pyEq : Val → Val → Bool
  | .none, .none => true
  | .vb a, .vb b => a == b
  | .vb a, .vi b => (if a then (1 : Int) else 0) == b
  | .vi a, .vb b => a == (if b then (1 : Int) else 0)
  | .vi a, .vi b => a == b
  | .vs a, .vs b => a == b
  | .vl a, .vl b => pyEqList a b
  | _, _ => false

/-- Elementwise Python `==` on lists of values. -/
def pyEqList : List Val → List Val → Bool
  | [], [] => true
  | a :: rest1, b :: rest2 => pyEq a b && pyEqList rest1 rest2
  | _, _ => false

end

/-- Python `is` against a literal default (`None`, `True`, `False` are
singletons; other defaults never reach an identity check in the source). -/
def pyIsLiteral : Val → Val → Bool
  | .none, .none => true
  | .vb a, .vb b => a == b
  | _, _ => false

/-- Python truthiness of an option value. -/
def truthy : Val → Bool
  | .none => false
  | .vb b => b
  | .vi n => n != 0
  | .vs s => s != ""
  | .vl xs => !xs.isEmpty

/-- Whether a value is a Python `str` (`isinstance(v, str)`). -/
def isStr : Val → Bool
  | .vs _ => true
  | _ => false

/-- Python iteration over a value (`for val in attr`): lists yield their
elements, strings yield their characters as one-character strings,
everything else raises `TypeError`. -/
def pyIter : Val → Except String (List Val)
  | .vl xs => .ok xs
  | .vs s => .ok (s.data.map fun c => Val.vs (String.mk [c]))
  | _ => .error "TypeError: object is not iterable"

/-- Declared field types occurring in the option dataclasses: `bool`,
`str`, `int`, `List[str]`.  `.other` stands for any other plain declared
type, for which `OptionsBase._is_list` returns `False` and `parse()`
reaches its `else` branch. -/
inductive FType where
  | bool
  | str
  | int
  | list
  | other
deriving Repr, DecidableEq

/-- One dataclass field of an option schema: its name, declared type,
declared default, and current value.  A schema instance is the list of its
fields in declaration order (`__dataclass_fields__` order). -/
structure Field where
  name : String
  ftype : FType
  default : Val
  value : Val
deriving Repr, DecidableEq

/-- Field initialized to its declared default. -/
def mkField (name : String) (t : FType) (d : Val) : Field :=
  { name, ftype := t, default := d, value := d }

/-- Model of `OptionsBase.convert_name`: add the `--` flag marker and
replace underscores with dashes. -/
def convert_name (value : String) : String :=
  "--" ++ String.mk (value.data.map fun c => if c = '_' then '-' else c)

/-- Model of `OptionsBase.__init__`: set each keyword argument whose name
is a declared field; unknown keys are silently ignored. -/
def applyKwargs (fields : List Field) (kwargs : List (String × Val)) : List Field :=
  kwargs.foldl
    (fun fs kv => fs.map fun f => if f.name = kv.1 then { f with value := kv.2 } else f)
    fields

/-- Python `getattr(self, name)` on a schema instance: `AttributeError`
when the name is not a declared field (and was never assigned). -/
def getattrF (fields : List Field) (name : String) : Except String Val :=
  match fields.find? (fun f => f.name = name) with
  | some f => .ok f.value
  | Option.none => .error ("AttributeError: " ++ name)

/-- Python `setattr(self, name, v)`: update a declared field, or create a
plain instance attribute (which `parse()`, iterating only
`__dataclass_fields__`, would never consult). -/
def setattrF (fields : List Field) (name : String) (v : Val) : List Field :=
  if fields.any (fun f => f.name = name) then
    fields.map fun f => if f.name = name then { f with value := v } else f
  else
    fields ++ [{ name, ftype := FType.other, default := Val.none, value := v }]

/-- Tokens produced by `parse()` for a single field, translated from the
body of the `for key, value in self.__dataclass_fields__.items()` loop. -/
def emitField (f : Field) : Except String (List Val) :=
  if f.value ≠ Val.none ∧ ¬ pyEq f.default f.value then
    match f.ftype with
    | .bool =>
      if ¬ pyIsLiteral f.value f.default then .ok [Val.vs (convert_name f.name)]
      else .ok []
    | .str => .ok [Val.vs (convert_name f.name), f.value]
    | .int => .ok [Val.vs (convert_name f.name), f.value]
    | .list => do
      let xs ← pyIter f.value
      .ok (xs.flatMap fun v => [Val.vs (convert_name f.name), v])
    | .other => .error ("TypeError: Unrecognized flag type for \"" ++ f.name ++ "\"")
  else .ok []

/-- Model of `OptionsBase.parse`: walk the fields in declaration order,
concatenating each field's tokens; the first offending field raises. -/
def parse : List Field → Except String (List Val)
  | [] => .ok []
  | f :: fs => do
    let ts ← emitField f
    let rest ← parse fs
    .ok (ts ++ rest)

/-- Declared fields of `CommonOptions`, in declaration order, with the
source defaults. -/
def commonFields : List Field :=
  [ mkField "critical" .bool (.vb false)
  , mkField "error" .bool (.vb false)
  , mkField "warning" .bool (.vb false)
  , mkField "info" .bool (.vb false)
  , mkField "verbose" .bool (.vb false)
  , mkField "debug" .bool (.vb false)
  , mkField "debug_topic" .list .none
  , mkField "progress" .bool (.vb false)
  , mkField "log_json" .bool (.vb false)
  , mkField "lock_wait" .int .none
  , mkField "bypass_lock" .bool (.vb false)
  , mkField "show_version" .bool (.vb false)
  , mkField "show_rc" .bool (.vb false)
  , mkField "umask" .str .none
  , mkField "remote_path" .str .none
  , mkField "remote_ratelimit" .int .none
  , mkField "consider_part_files" .bool (.vb false)
  , mkField "debug_profile" .str .none
  , mkField "rsh" .str .none ]

/-- Declared fields of `ExclusionOptions`. -/
def exclusionFields : List Field :=
  [ mkField "exclude" .list .none
  , mkField "exclude_from" .str .none
  , mkField "pattern" .list .none
  , mkField "patterns_from" .str .none ]

/-- Declared fields of `ExclusionInput` (base-class fields first, as in
`__dataclass_fields__`). -/
def exclusionInputFields : List Field :=
  exclusionFields ++
  [ mkField "exclude_caches" .bool (.vb false)
  , mkField "exclude_if_present" .list .none
  , mkField "keep_exclude_tags" .bool (.vb false)
  , mkField "keep_tag_files" .bool (.vb false)
  , mkField "exclude_nodump" .bool (.vb false) ]

/-- Python `re.match(r"^[0-9]{4}", s)` truthiness: the first four
characters exist and are ASCII digits (the pattern is not anchored at the
end). -/
def matchFourDigits (s : String) : Bool :=
  match s.data with
  | a :: b :: c :: d :: _ => a.isDigit && b.isDigit && c.isDigit && d.isDigit
  | _ => false

/-- Model of `CommonOptions.__init__`: base init, then
`if isinstance(self.debug_topic, str): self.exclude = [self.exclude]`
(note: the source reads the undeclared attribute `exclude` here), then the
umask format check raising `ValueError` on mismatch. -/
def commonInit (kwargs : List (String × Val)) : Except String (List Field) := do
  let fs := applyKwargs commonFields kwargs
  let dt ← getattrF fs "debug_topic"
  let fs ←
    if isStr dt then do
      let ex ← getattrF fs "exclude"
      pure (setattrF fs "exclude" (Val.vl [ex]))
    else pure fs
  let um ← getattrF fs "umask"
  if truthy um then
    match um with
    | Val.vs s =>
      if ¬ matchFourDigits s then
        .error "ValueError: umask must be in format 0000 permission code, eg: 0077"
      else pure fs
    | _ => .error "TypeError: expected string or bytes-like object"
  else pure fs

/-- Model of `ExclusionOptions.__init__`: base init, then single-string
coercion of `exclude` and `pattern`. -/
def exclusionInit (kwargs : List (String × Val)) : Except String (List Field) := do
  let fs := applyKwargs exclusionFields kwargs
  let ex ← getattrF fs "exclude"
  let fs := if isStr ex then setattrF fs "exclude" (Val.vl [ex]) else fs
  let pt ← getattrF fs "pattern"
  let fs := if isStr pt then setattrF fs "pattern" (Val.vl [pt]) else fs
  pure fs

/-- Model of `ExclusionInput.__init__`: the inherited init (base init over
the full field set plus the `exclude`/`pattern` coercions), then
single-string coercion of `exclude_if_present`. -/
def exclusionInputInit (kwargs : List (String × Val)) : Except String (List Field) := do
  let fs := applyKwargs exclusionInputFields kwargs
  let ex ← getattrF fs "exclude"
  let fs := if isStr ex then setattrF fs "exclude" (Val.vl [ex]) else fs
  let pt ← getattrF fs "pattern"
  let fs := if isStr pt then setattrF fs "pattern" (Val.vl [pt]) else fs
  let ip ← getattrF fs "exclude_if_present"
  let fs := if isStr ip then setattrF fs "exclude_if_present" (Val.vl [ip]) else fs
  pure fs

/-- Value of a named field in a constructor result, if construction
succeeded. -/
def initValue (r : Except String (List Field)) (name : String) : Option Val :=
  match r with
  | .ok fs => (fs.find? (fun f => f.name = name)).map (fun f => f.value)
  | .error _ => Option.none

end Options

namespace Json

/-- JSON values as produced by `json.loads`.  Numbers keep their source
lexeme (the claims never compare distinct spellings of one number). -/
inductive Value where
  | null
  | jb (b : Bool)
  | num (lexeme : String)
  | jstr (s : String)
  | arr (xs : List Value)
  | obj (kvs : List (String × Value))
deriving Repr

/-- JSON whitespace accepted by Python's `json` module between tokens. -/
def skipWs (cs : List Char) : List Char :=
  cs.dropWhile fun c => c = ' ' || c = '\t' || c = '\n' || c = '\r'

/-- Hexadecimal digit value. -/
def hexVal (c : Char) : Option Nat :=
  if '0' ≤ c ∧ c ≤ '9' then some (c.toNat - '0'.toNat)
  else if 'a' ≤ c ∧ c ≤ 'f' then some (c.toNat - 'a'.toNat + 10)
  else if 'A' ≤ c ∧ c ≤ 'F' then some (c.toNat - 'A'.toNat + 10)
  else Option.none

/-- Escape characters accepted after a backslash in a JSON string. -/
def escChar : Char → Option Char
  | '"' => some '"'
  | '\\' => some '\\'
  | '/' => some '/'
  | 'b' => some (Char.ofNat 8)
  | 'f' => some (Char.ofNat 12)
  | 'n' => some '\n'
  | 'r' => some '\r'
  | 't' => some '\t'
  | _ => Option.none

/-- Body of a JSON string after the opening quote: decoded characters and
the remainder after the closing quote.  Raw control characters are
rejected (Python's strict mode); `\uXXXX` escapes decode via
`Char.ofNat` (surrogate halves, which Lean's `Char` cannot carry, fall to
NUL — no claim exercises them). -/
def parseJStr : List Char → Option (List Char × List Char)
  | [] => Option.none
  | '"' :: rest => some ([], rest)
  | '\\' :: 'u' :: h1 :: h2 :: h3 :: h4 :: rest => do
    let a ← hexVal h1
    let b ← hexVal h2
    let c ← hexVal h3
    let d ← hexVal h4
    let (cs, r) ← parseJStr rest
    some (Char.ofNat (((a * 16 + b) * 16 + c) * 16 + d) :: cs, r)
  | '\\' :: e :: rest => do
    let c ← escChar e
    let (cs, r) ← parseJStr rest
    some (c :: cs, r)
  | c :: rest =>
    if c.toNat < 0x20 then Option.none
    else do
      let (cs, r) ← parseJStr rest
      some (c :: cs, r)

/-- Strict JSON number grammar as accepted by Python
(`-? (0 | [1-9][0-9]*) (\.[0-9]+)? ([eE][-+]?[0-9]+)?`, plus the
`-Infinity` constant); returns the lexeme and the remainder. -/
def parseNum (cs : List Char) : Option (List Char × List Char) :=
  let (neg, cs1) :=
    match cs with
    | '-' :: r => (['-'], r)
    | _ => (([] : List Char), cs)
  match cs1 with
  | 'I' :: 'n' :: 'f' :: 'i' :: 'n' :: 'i' :: 't' :: 'y' :: rest =>
    if neg.isEmpty then Option.none else some (neg ++ "Infinity".data, rest)
  | _ => do
    let (ip, r1) ←
      match cs1 with
      | '0' :: r => some (['0'], r)
      | c :: r =>
        if c.isDigit then
          some (c :: r.takeWhile Char.isDigit, r.dropWhile Char.isDigit)
        else Option.none
      | [] => Option.none
    let (fp, r2) :=
      match r1 with
      | '.' :: d :: r =>
        if d.isDigit then
          ('.' :: d :: r.takeWhile Char.isDigit, r.dropWhile Char.isDigit)
        else (([] : List Char), r1)
      | _ => (([] : List Char), r1)
    let (ep, r3) :=
      match r2 with
      | e :: '+' :: d :: r =>
        if (e = 'e' || e = 'E') && d.isDigit then
          (e :: '+' :: d :: r.takeWhile Char.isDigit, r.dropWhile Char.isDigit)
        else (([] : List Char), r2)
      | e :: '-' :: d :: r =>
        if (e = 'e' || e = 'E') && d.isDigit then
          (e :: '-' :: d :: r.takeWhile Char.isDigit, r.dropWhile Char.isDigit)
        else (([] : List Char), r2)
      | e :: d :: r =>
        if (e = 'e' || e = 'E') && d.isDigit then
          (e :: d :: r.takeWhile Char.isDigit, r.dropWhile Char.isDigit)
        else (([] : List Char), r2)
      | _ => (([] : List Char), r2)
    some (neg ++ ip ++ fp ++ ep, r3)

/-- Python `dict` insertion while parsing an object: an existing key keeps
its position and takes the new value; a new key is appended. -/
def insertKV (kvs : List (String × Value)) (k : String) (v : Value) :
    List (String × Value) :=
  if kvs.any (fun p => p.1 = k) then
    kvs.map fun p => if p.1 = k then (k, v) else p
  else kvs ++ [(k, v)]

mutual

/-- One JSON value starting at `cs` (fuel-indexed recursion; `loads`
supplies ample fuel). -/
def parseVal : Nat → List Char → Option (Value × List Char)
  | 0, _ => Option.none
  | fuel + 1, cs =>
    match skipWs cs with
    | '{' :: rest => parseObjStart fuel rest
    | '[' :: rest => parseArrStart fuel rest
    | '"' :: rest => (parseJStr rest).map fun p => (Value.jstr (String.mk p.1), p.2)
    | 't' :: 'r' :: 'u' :: 'e' :: rest => some (.jb true, rest)
    | 'f' :: 'a' :: 'l' :: 's' :: 'e' :: rest => some (.jb false, rest)
    | 'n' :: 'u' :: 'l' :: 'l' :: rest => some (.null, rest)
    | 'N' :: 'a' :: 'N' :: rest => some (.num "NaN", rest)
    | 'I' :: 'n' :: 'f' :: 'i' :: 'n' :: 'i' :: 't' :: 'y' :: rest =>
      some (.num "Infinity", rest)
    | other => (parseNum other).map fun p => (Value.num (String.mk p.1), p.2)

/-- Array body after `[`. -/
def parseArrStart : Nat → List Char → Option (Value × List Char)
  | 0, _ => Option.none
  | fuel + 1, cs =>
    match skipWs cs with
    | ']' :: rest => some (.arr [], rest)
    | other => parseArrItems fuel other []

/-- Comma-separated array items up to `]`. -/
def parseArrItems : Nat → List Char → List Value → Option (Value × List Char)
  | 0, _, _ => Option.none
  | fuel + 1, cs, acc => do
    let (v, r) ← parseVal fuel cs
    match skipWs r with
    | ',' :: r2 => parseArrItems fuel r2 (acc ++ [v])
    | ']' :: r2 => some (.arr (acc ++ [v]), r2)
    | _ => Option.none

/-- Object body after `{`. -/
def parseObjStart : Nat → List Char → Option (Value × List Char)
  | 0, _ => Option.none
  | fuel + 1, cs =>
    match skipWs cs with
    | '}' :: rest => some (.obj [], rest)
    | other => parseObjItems fuel other []

/-- Comma-separated `"key": value` members up to `}`. -/
def parseObjItems : Nat → List Char → List (String × Value) →
    Option (Value × List Char)
  | 0, _, _ => Option.none
  | fuel + 1, cs, acc =>
    match skipWs cs with
    | '"' :: r => do
      let (k, r1) ← parseJStr r
      match skipWs r1 with
      | ':' :: r2 => do
        let (v, r3) ← parseVal fuel r2
        let acc2 := insertKV acc (String.mk k) v
        match skipWs r3 with
        | ',' :: r4 => parseObjItems fuel r4 acc2
        | '}' :: r4 => some (.obj acc2, r4)
        | _ => Option.none
      | _ => Option.none
    | _ => Option.none

end

/-- Model of `json.loads`: parse one JSON value and require only
whitespace to remain; `none` models `json.decoder.JSONDecodeError`. -/
def loads (s : String) : Option Value :=
  match parseVal (4 * s.data.length + 8) s.data with
  | some (j, rest) => if (skipWs rest).isEmpty then some j else Option.none
  | Option.none => Option.none

end Json

namespace Borg

/-- Python `str.replace(pat, rep)` for a non-empty pattern: leftmost,
non-overlapping (fuel-indexed; one character is consumed per fuel unit). -/
def replaceFuel (pat rep : List Char) : Nat → List Char → List Char
  | 0, cs => cs
  | _ + 1, [] => []
  | fuel + 1, c :: rest =>
    if pat.isPrefixOf (c :: rest) then
      rep ++ replaceFuel pat rep fuel ((c :: rest).drop pat.length)
    else c :: replaceFuel pat rep fuel rest

/-- String-level `s.replace(pat, rep)` (non-empty pattern). -/
def pyReplace (s pat rep : String) : String :=
  String.mk (replaceFuel pat.data rep.data s.data.length s.data)

/-- Input of `_loads_json_lines`: a Python `str` or a `list` of strings. -/
inductive PyIn where
  | pstr (s : String)
  | plist (l : List String)
deriving Repr, DecidableEq

/-- Result of `_loads_json_lines`: a parsed JSON value, the original
input unchanged, or `None`. -/
inductive LoadsRes where
  | json (j : Json.Value)
  | raw (v : PyIn)
  | pynone
deriving Repr

/-- Model of `BorgAPIBase._loads_json_lines`.  For a `str`: try
`loads(string)`, then lines joined with commas in brackets, then the
`}{ → },{` rewrite in brackets, else `string or None`.  For a `list`: try
the comma-join in brackets; on failure the source's duplicated
`type(string) is str` test leaves `clean` unassigned and the retry raises
`UnboundLocalError`. -/
def _loads_json_lines : PyIn → Except String LoadsRes
  | .pstr s =>
    match Json.loads s with
    | some j => .ok (.json j)
    | Option.none =>
      let clean := "[" ++ String.intercalate "," (Py.splitlines s) ++ "]"
      match Json.loads clean with
      | some j => .ok (.json j)
      | Option.none =>
        let multiline := "[" ++ pyReplace s "\x7d\x7b" "\x7d,\x7b" ++ "]"
        match Json.loads multiline with
        | some j => .ok (.json j)
        | Option.none => .ok (if s = "" then .pynone else .raw (.pstr s))
  | .plist l =>
    match Json.loads ("[" ++ String.intercalate "," l ++ "]") with
    | some j => .ok (.json j)
    | Option.none =>
      .error "UnboundLocalError: cannot access local variable 'clean'"

/-- Channel values handed to `_build_result`: the `Output` union
(`str | list | dict | None`). -/
inductive OutVal where
  | onone
  | ostr (s : String)
  | olist (xs : List OutVal)
  | odict (kvs : List (String × OutVal))
deriving Repr

mutual

/-- Decidable equality for `OutVal` (nested inductive, so written by
hand). -/
def decEqOutVal : (a b : OutVal) → Decidable (a = b)
  | .onone, .onone => .isTrue rfl
  | .ostr a, .ostr b =>
    if h : a = b then .isTrue (h ▸ rfl) else .isFalse (fun hh => h (OutVal.ostr.inj hh))
  | .olist a, .olist b =>
    match decEqOutValList a b with
    | .isTrue h => .isTrue (h ▸ rfl)
    | .isFalse h => .isFalse (fun hh => h (OutVal.olist.inj hh))
  | .odict a, .odict b =>
    match decEqOutValKVs a b with
    | .isTrue h => .isTrue (h ▸ rfl)
    | .isFalse h => .isFalse (fun hh => h (OutVal.odict.inj hh))
  | .onone, .ostr _ => .isFalse (fun h => OutVal.noConfusion h)
  | .onone, .olist _ => .isFalse (fun h => OutVal.noConfusion h)
  | .onone, .odict _ => .isFalse (fun h => OutVal.noConfusion h)
  | .ostr _, .onone => .isFalse (fun h => OutVal.noConfusion h)
  | .ostr _, .olist _ => .isFalse (fun h => OutVal.noConfusion h)
  | .ostr _, .odict _ => .isFalse (fun h => OutVal.noConfusion h)
  | .olist _, .onone => .isFalse (fun h => OutVal.noConfusion h)
  | .olist _, .ostr _ => .isFalse (fun h => OutVal.noConfusion h)
  | .olist _, .odict _ => .isFalse (fun h => OutVal.noConfusion h)
  | .odict _, .onone => .isFalse (fun h => OutVal.noConfusion h)
  | .odict _, .ostr _ => .isFalse (fun h => OutVal.noConfusion h)
  | .odict _, .olist _ => .isFalse (fun h => OutVal.noConfusion h)

/-- Decidable equality for lists of `OutVal`. -/
def decEqOutValList : (a b : List OutVal) → Decidable (a = b)
  | [], [] => .isTrue rfl
  | [], _ :: _ => .isFalse (fun h => List.noConfusion h)
  | _ :: _, [] => .isFalse (fun h => List.noConfusion h)
  | x :: xs, y :: ys =>
    match decEqOutVal x y with
    | .isFalse h1 => .isFalse (fun h => h1 (List.cons.inj h).1)
    | .isTrue h1 =>
      match decEqOutValList xs ys with
      | .isTrue h2 => .isTrue (h1 ▸ h2 ▸ rfl)
      | .isFalse h2 => .isFalse (fun h => h2 (List.cons.inj h).2)

/-- Decidable equality for key-value lists over `OutVal`. -/
def decEqOutValKVs : (a b : List (String × OutVal)) → Decidable (a = b)
  | [], [] => .isTrue rfl
  | [], _ :: _ => .isFalse (fun h => List.noConfusion h)
  | _ :: _, [] => .isFalse (fun h => List.noConfusion h)
  | (k1, v1) :: xs, (k2, v2) :: ys =>
    if hk : k1 = k2 then
      match decEqOutVal v1 v2 with
      | .isFalse h1 =>
        .isFalse (fun h => h1 (congrArg Prod.snd (List.cons.inj h).1))
      | .isTrue h1 =>
        match decEqOutValKVs xs ys with
        | .isTrue h2 => .isTrue (hk ▸ h1 ▸ h2 ▸ rfl)
        | .isFalse h2 => .isFalse (fun h => h2 (List.cons.inj h).2)
    else .isFalse (fun h => hk (congrArg Prod.fst (List.cons.inj h).1))

end

instance : DecidableEq OutVal := decEqOutVal

/-- Python `len(v)`: characters of a string, elements of a list, keys of a
dict; `TypeError` for `None`. -/
def pyLen : OutVal → Except String Nat
  | .onone => .error "TypeError: object of type NoneType has no len"
  | .ostr s => .ok s.length
  | .olist xs => .ok xs.length
  | .odict kvs => .ok kvs.length

/-- Python `v[0]`: first character of a string, first element of a list;
`KeyError` for a string-keyed dict, `TypeError` for `None`. -/
def pyIndexZero : OutVal → Except String OutVal
  | .onone => .error "TypeError: NoneType is not subscriptable"
  | .ostr s =>
    match s.data with
    | c :: _ => .ok (.ostr (String.mk [c]))
    | [] => .error "IndexError: string index out of range"
  | .olist xs =>
    match xs with
    | x :: _ => .ok x
    | [] => .error "IndexError: list index out of range"
  | .odict _ => .error "KeyError: 0"

/-- Structured value returned by `_build_result`: `None`, one channel's
value, or a name-to-value mapping. -/
inductive BuildRes where
  | bnone
  | val (v : OutVal)
  | bmap (kvs : List (String × OutVal))
deriving Repr, DecidableEq

/-- Python `dict` assignment used when assembling the mapping. -/
def dictSet (kvs : List (String × OutVal)) (k : String) (v : OutVal) :
    List (String × OutVal) :=
  if kvs.any (fun p => p.1 = k) then
    kvs.map fun p => if p.1 = k then (k, v) else p
  else kvs ++ [(k, v)]

/-- Model of `BorgAPIBase._build_result`: no results gives `None`; one
result gives its value, additionally indexed with `[0]` when its `len` is
1; otherwise a dict of all (name, value) pairs, with no filtering. -/
def _build_result : List (String × OutVal) → Except String BuildRes
  | [] => .ok .bnone
  | [(_, v)] => do
    let n ← pyLen v
    if n = 1 then do
      let x ← pyIndexZero v
      .ok (.val x)
    else .ok (.val v)
  | results =>
    .ok (.bmap (results.foldl (fun acc kv => dictSet acc kv.1 kv.2) []))

/-- Python truthiness of a channel value ("populated" in the spec's
sense). -/
def truthyOut : OutVal → Bool
  | .onone => false
  | .ostr s => s ≠ ""
  | .olist xs => !xs.isEmpty
  | .odict kvs => !kvs.isEmpty

/-- Written from the spec's words, for comparison with `_build_result`:
zero populated channels give an absent result, exactly one populated
channel gives its value unwrapped, two or more give the mapping with
empty/falsy channels omitted. -/
def buildResultSpecModel (results : List (String × OutVal)) : BuildRes :=
  match results.filter (fun kv => truthyOut kv.2) with
  | [] => .bnone
  | [(_, v)] => .val v
  | pop => .bmap pop

end Borg

-- sanity checks on the JSON heuristic (fixtures from the spec, section 8)
example :
    Borg._loads_json_lines (.pstr "\x7b\"a\":1\x7d\n\x7b\"b\":2\x7d")
      = .ok (.json (.arr [.obj [("a", .num "1")], .obj [("b", .num "2")]])) := by
  rfl
example :
    Borg._loads_json_lines (.pstr "hello\nworld")
      = .ok (.raw (.pstr "hello\nworld")) := by rfl
example :
    Borg._loads_json_lines (.pstr "\x7b\"a\":1\x7d\x7b\"b\":2\x7d")
      = .ok (.json (.arr [.obj [("a", .num "1")], .obj [("b", .num "2")]])) := by
  rfl
example :
    Borg._loads_json_lines (.plist ["not json"])
      = .error "UnboundLocalError: cannot access local variable 'clean'" := by rfl
example : Json.loads "[1, -2.5e3, \"x\"]"
      = some (.arr [.num "1", .num "-2.5e3", .jstr "x"]) := by rfl
example : Json.loads "01" = Option.none := by rfl

-- sanity checks on the options model
example :
    Options.parse (Options.applyKwargs Options.exclusionFields
      [("exclude_from", .vs "f")])
      = .ok [.vs "--exclude-from", .vs "f"] := by decide
example : Options.parse Options.commonFields = .ok [] := by decide
example :
    Options.commonInit [("umask", .vs "0077")] |>.isOk := by decide
example :
    Options.commonInit [("umask", .vs "77")] = .error
      "ValueError: umask must be in format 0000 permission code, eg: 0077" := by decide
example :
    Options.commonInit [("debug_topic", .vs "ssh")] = .error "AttributeError: exclude" := by
  decide
example :
    Options.initValue (Options.exclusionInit [("exclude", .vs "p")]) "exclude"
      = some (.vl [.vs "p"]) := by decide

-- sanity checks on the capture engine model
example : (Capture.callCapture Capture.world0 {}).stdout = 10 := by decide
example :
    (Capture.closeCapture (Capture.callCapture Capture.world0 {})).stdout = 0 := by
  decide
example :
    (Capture.PersistantHandler.callHandler (.init false)
      { levelno := 20, msg := "hello" }).records = ["hello"] := by decide
example :
    (Capture.PersistantHandler.callHandler (.init false)
      { levelno := 10, msg := "hello" }).records = [] := by decide

mutual

/-- Python `==` is reflexive on option values. -/
theorem pyEq_refl : ∀ v : Options.Val, Options.pyEq v v = true
  | .none => rfl
  | .vb b => by simp [Options.pyEq]
  | .vi n => by simp [Options.pyEq]
  | .vs s => by simp [Options.pyEq]
  | .vl xs => by simp [Options.pyEq, pyEqList_refl xs]

/-- Python `==` is reflexive on lists of option values. -/
theorem pyEqList_refl : ∀ xs : List Options.Val, Options.pyEqList xs xs = true
  | [] => rfl
  | x :: rest => by simp [Options.pyEqList, pyEq_refl x, pyEqList_refl rest]

end

/-- Folding Python dict assignment over pairwise-distinct keys just
collects the pairs in order. -/
theorem dictFold_nodup (rs : List (String × Borg.OutVal)) :
    ∀ acc : List (String × Borg.OutVal),
      (rs.map Prod.fst).Nodup →
      (∀ p ∈ acc, ∀ q ∈ rs, p.1 ≠ q.1) →
      rs.foldl (fun a kv => Borg.dictSet a kv.1 kv.2) acc = acc ++ rs := by
  induction rs with
  | nil => intro acc _ _; simp
  | cons x xs ih =>
    intro acc hnd hsep
    have hx : acc.any (fun p => p.1 = x.1) = false := by
      simp only [List.any_eq_false]
      intro p hp
      simpa using hsep p hp x (by simp)
    have step : Borg.dictSet acc x.1 x.2 = acc ++ [(x.1, x.2)] := by
      simp [Borg.dictSet, hx]
    have hnd' : (xs.map Prod.fst).Nodup := (List.nodup_cons.mp (by simpa using hnd)).2
    have hsep' : ∀ p ∈ acc ++ [(x.1, x.2)], ∀ q ∈ xs, p.1 ≠ q.1 := by
      intro p hp q hq
      rcases List.mem_append.mp hp with hp1 | hp1
      · exact hsep p hp1 q (by simp [hq])
      · have hpx : p = (x.1, x.2) := by simpa using hp1
        have hx1 : x.1 ∉ xs.map Prod.fst := (List.nodup_cons.mp (by simpa using hnd)).1
        intro hcontra
        exact hx1 (by
          rw [hpx] at hcontra
          simp only [List.mem_map]
          exact ⟨q, hq, hcontra.symm⟩)
    calc (x :: xs).foldl (fun a kv => Borg.dictSet a kv.1 kv.2) acc
        = xs.foldl (fun a kv => Borg.dictSet a kv.1 kv.2) (Borg.dictSet acc x.1 x.2) := rfl
      _ = (acc ++ [(x.1, x.2)]) ++ xs := by rw [step, ih _ hnd' hsep']
      _ = acc ++ x :: xs := by simp

/-- C1: the JSON-repair heuristic is claimed never to raise for string or
list input.  For every string input it indeed returns normally, but for a
list input whose bracketed comma-join fails to parse, the duplicated
`type(string) is str` test in the `except` branch leaves `clean` unbound
and the retry raises `UnboundLocalError` — evaluated here at the concrete
failing input `["not json"]`. -/
theorem C1_loads_json_lines_list_input_raises :
    Borg._loads_json_lines (.plist ["not json"])
        = .error "UnboundLocalError: cannot access local variable 'clean'" ∧
    (∀ s : String, ∃ r, Borg._loads_json_lines (.pstr s) = .ok r) := by
  refine ⟨rfl, fun s => ?_⟩
  cases h1 : Json.loads s with
  | some j => exact ⟨.json j, by simp [Borg._loads_json_lines, h1]⟩
  | none =>
    cases h2 : Json.loads ("[" ++ String.intercalate "," (Py.splitlines s) ++ "]") with
    | some j => exact ⟨.json j, by simp [Borg._loads_json_lines, h1, h2]⟩
    | none =>
      cases h3 : Json.loads ("[" ++ Borg.pyReplace s "\x7d\x7b" "\x7d,\x7b" ++ "]") with
      | some j => exact ⟨.json j, by simp [Borg._loads_json_lines, h1, h2, h3]⟩
      | none =>
        by_cases hs : s = ""
        · refine ⟨.pynone, ?_⟩
          simp only [Borg._loads_json_lines, h1, h2, h3]
          simp [hs]
        · refine ⟨.raw (.pstr s), ?_⟩
          simp only [Borg._loads_json_lines, h1, h2, h3]
          simp [hs]

/-- C2 counterexample: with channels `stats = "x"` and `list = ""`,
`_build_result` counts channels rather than populated channels and keeps
the empty/falsy `list` channel in the mapping, whereas the claim's
assembly rule sees exactly one populated channel and returns `"x"`
unwrapped. -/
theorem C2_counterexample_falsy_not_omitted :
    Borg._build_result [("stats", .ostr "x"), ("list", .ostr "")]
        = .ok (.bmap [("stats", .ostr "x"), ("list", .ostr "")]) ∧
    Borg.buildResultSpecModel [("stats", .ostr "x"), ("list", .ostr "")]
        = .val (.ostr "x") ∧
    Borg._build_result [("stats", .ostr "x"), ("list", .ostr "")]
        ≠ .ok (Borg.buildResultSpecModel [("stats", .ostr "x"), ("list", .ostr "")]) := by
  refine ⟨by decide, by decide, by decide⟩

/-- C2 amended: `_build_result` returns `None` for zero channels; for
exactly one channel it returns the value, except that a value of length 1
is additionally indexed with `[0]`; for two or more channels it returns
the full mapping, including empty/falsy channels, with no omission. -/
theorem C2_build_result_amended :
    (Borg._build_result [] = .ok .bnone) ∧
    (∀ (name : String) (v : Borg.OutVal) (n : Nat),
        Borg.pyLen v = .ok n → n ≠ 1 →
        Borg._build_result [(name, v)] = .ok (.val v)) ∧
    (∀ (name : String) (v : Borg.OutVal),
        Borg.pyLen v = .ok 1 →
        Borg._build_result [(name, v)] = (Borg.pyIndexZero v).map .val) ∧
    (∀ results : List (String × Borg.OutVal),
        2 ≤ results.length → (results.map Prod.fst).Nodup →
        Borg._build_result results = .ok (.bmap results)) := by
  refine ⟨rfl, ?_, ?_, ?_⟩
  · intro name v n hlen hne
    simp [Borg._build_result, hlen, hne, Except.bind, Bind.bind]
  · intro name v hlen
    cases h : Borg.pyIndexZero v with
    | ok x => simp [Borg._build_result, hlen, h, Except.bind, Bind.bind, Except.map]
    | error e => simp [Borg._build_result, hlen, h, Except.bind, Bind.bind, Except.map]
  · intro results hlen hnd
    cases results with
    | nil => simp at hlen
    | cons a rest1 =>
      cases rest1 with
      | nil => simp at hlen
      | cons b rest =>
        have base : Borg._build_result (a :: b :: rest)
            = .ok (.bmap ((a :: b :: rest).foldl
                (fun acc kv => Borg.dictSet acc kv.1 kv.2) [])) := rfl
        rw [base, dictFold_nodup _ _ hnd (fun p hp => by simp at hp)]
        simp

/-- C2 witness: the amended assembly clauses applied at concrete channel
lists. -/
theorem C2_build_result_witness :
    Borg._build_result [("stats", .ostr "xy")] = .ok (.val (.ostr "xy")) ∧
    Borg._build_result [("info", .ostr "x")]
      = (Borg.pyIndexZero (.ostr "x")).map .val ∧
    Borg._build_result [("stats", .ostr "x"), ("list", .ostr "y")]
      = .ok (.bmap [("stats", .ostr "x"), ("list", .ostr "y")]) :=
  ⟨C2_build_result_amended.2.1 "stats" (.ostr "xy") 2 (by decide) (by decide),
   C2_build_result_amended.2.2.1 "info" (.ostr "x") (by decide),
   C2_build_result_amended.2.2.2 [("stats", .ostr "x"), ("list", .ostr "y")]
     (by decide) (by decide)⟩

/-- C3: around every invocation, `_run`'s `with self.output(opts):` scope
calls `close()` on every exit path — normal return and raising body alike —
and `close()`'s `finally` block restores `sys.stdout` and `sys.stderr` to
exactly the identities saved at `open()`, i.e. their pre-open values; the
body's exception is re-raised unchanged. -/
theorem C3_close_restores_streams {ε : Type} :
    ∀ (w : Capture.World) (opts : Capture.OutputOptions) (body : Except ε Unit),
      (Capture.runCapture w opts body).2.stdout = w.stdout ∧
      (Capture.runCapture w opts body).2.stderr = w.stderr ∧
      (Capture.runCapture w opts body).1 = body := by
  intro w opts body
  cases body with
  | ok u => cases u; exact ⟨rfl, rfl, rfl⟩
  | error e => exact ⟨rfl, rfl, rfl⟩

/-- C4 counterexample: a second `open()` (`__call__`) while a session is
active is not rejected: from the concrete initial state it proceeds, sets
`ready` again, overwrites the saved original stdout with the first
session's capture stream (10), and after `close()` the process's stdout is
that capture stream, not the pre-open stream 0. -/
theorem C4_counterexample_reentrant_open_not_rejected :
    (Capture.callCapture Capture.world0 {}).cap.ready = true ∧
    (Capture.callCapture (Capture.callCapture Capture.world0 {}) {}).cap.ready = true ∧
    (Capture.callCapture (Capture.callCapture Capture.world0 {}) {}).cap.stdout_original
        = (Capture.callCapture Capture.world0 {}).stdout ∧
    (Capture.callCapture (Capture.callCapture Capture.world0 {}) {}).cap.stdout_original
        ≠ Capture.world0.stdout ∧
    (Capture.closeCapture
        (Capture.callCapture (Capture.callCapture Capture.world0 {}) {})).stdout
        ≠ Capture.world0.stdout := by
  refine ⟨rfl, rfl, rfl, ?_, ?_⟩ <;> decide

/-- C4 amended: `__call__` has no re-entrancy guard: invoked while a
session is already open it silently proceeds, re-arms `ready`, and saves
the currently installed capture streams as the "originals", so the
subsequent `close()` restores the first session's capture streams instead
of the true pre-open targets. -/
theorem C4_second_open_silently_proceeds :
    ∀ (w : Capture.World) (opts : Capture.OutputOptions),
      w.cap.ready = true →
      (Capture.callCapture w opts).cap.ready = true ∧
      (Capture.callCapture w opts).cap.stdout_original = w.stdout ∧
      (Capture.callCapture w opts).cap.stderr_original = w.stderr ∧
      (Capture.closeCapture (Capture.callCapture w opts)).stdout = w.stdout ∧
      (Capture.closeCapture (Capture.callCapture w opts)).stderr = w.stderr :=
  fun _ _ _ => ⟨rfl, rfl, rfl, rfl, rfl⟩

/-- C4 witness: the amended theorem applied to the concrete state in which
one session is already open. -/
theorem C4_second_open_witness :
    (Capture.callCapture Capture.world0 {}).cap.ready = true ∧
    ((Capture.callCapture (Capture.callCapture Capture.world0 {}) {}).cap.ready = true ∧
     (Capture.callCapture (Capture.callCapture Capture.world0 {}) {}).cap.stdout_original
        = (Capture.callCapture Capture.world0 {}).stdout ∧
     (Capture.callCapture (Capture.callCapture Capture.world0 {}) {}).cap.stderr_original
        = (Capture.callCapture Capture.world0 {}).stderr ∧
     (Capture.closeCapture (Capture.callCapture (Capture.callCapture Capture.world0 {}) {})).stdout
        = (Capture.callCapture Capture.world0 {}).stdout ∧
     (Capture.closeCapture (Capture.callCapture (Capture.callCapture Capture.world0 {}) {})).stderr
        = (Capture.callCapture Capture.world0 {}).stderr) :=
  ⟨by decide, C4_second_open_silently_proceeds (Capture.callCapture Capture.world0 {}) {} (by decide)⟩

/-- C5: `parse()` walks the declared fields in declaration order; a
defaults-only instance serializes to no tokens; a boolean field set to a
non-default boolean yields the bare `--dashed-name` flag; a string or
integer field set to a non-default value yields the flag followed by the
value; a list field yields one flag/element pair per element in order; any
other declared field type raises a `TypeError` naming the field. -/
theorem C5_parse_tokens :
    (∀ fs : List Options.Field, (∀ f ∈ fs, f.value = f.default) →
        Options.parse fs = .ok []) ∧
    (∀ (f : Options.Field) (fs : List Options.Field),
        Options.parse (f :: fs)
          = (Options.emitField f).bind fun ts =>
              (Options.parse fs).map fun rest => ts ++ rest) ∧
    (∀ (name : String) (db b : Bool), b ≠ db →
        Options.emitField ⟨name, .bool, .vb db, .vb b⟩
          = .ok [.vs (Options.convert_name name)]) ∧
    (∀ (name : String) (d : Options.Val) (s : String),
        Options.pyEq d (.vs s) = false →
        Options.emitField ⟨name, .str, d, .vs s⟩
          = .ok [.vs (Options.convert_name name), .vs s]) ∧
    (∀ (name : String) (d : Options.Val) (n : Int),
        Options.pyEq d (.vi n) = false →
        Options.emitField ⟨name, .int, d, .vi n⟩
          = .ok [.vs (Options.convert_name name), .vi n]) ∧
    (∀ (name : String) (d : Options.Val) (xs : List Options.Val),
        Options.pyEq d (.vl xs) = false →
        Options.emitField ⟨name, .list, d, .vl xs⟩
          = .ok (xs.flatMap fun v => [.vs (Options.convert_name name), v])) ∧
    (∀ (name : String) (d v : Options.Val),
        v ≠ .none → Options.pyEq d v = false →
        Options.emitField ⟨name, .other, d, v⟩
          = .error ("TypeError: Unrecognized flag type for \"" ++ name ++ "\"")) := by
  refine ⟨?_, ?_, ?_, ?_, ?_, ?_, ?_⟩
  · intro fs h
    induction fs with
    | nil => rfl
    | cons f fs ih =>
      have hf : f.value = f.default := h f (by simp)
      have hemit : Options.emitField f = .ok [] := by
        simp [Options.emitField, hf, pyEq_refl]
      have hrest := ih fun g hg => h g (by simp [hg])
      simp [Options.parse, hemit, hrest, Except.bind, Bind.bind]
  · intro f fs
    cases hemit : Options.emitField f <;>
      cases hp : Options.parse fs <;>
        simp [Options.parse, hemit, hp, Except.bind, Bind.bind, Except.map]
  · intro name db b h
    have h1 : (db == b) = false := by simp [Ne.symm h]
    have h2 : (b == db) = false := by simp [h]
    simp [Options.emitField, Options.pyEq, Options.pyIsLiteral, h1, h2]
  · intro name d s h
    simp [Options.emitField, h]
  · intro name d n h
    simp [Options.emitField, h]
  · intro name d xs h
    simp [Options.emitField, h, Options.pyIter, Except.bind, Bind.bind]
  · intro name d v hv h
    simp [Options.emitField, h, hv]

/-- C5 witness: the parse clauses applied at concrete fields. -/
theorem C5_parse_tokens_witness :
    Options.parse [Options.mkField "dry_run" .bool (.vb false)] = .ok [] ∧
    Options.parse [(⟨"verbose", .bool, .vb false, .vb true⟩ : Options.Field)]
        = (Options.emitField ⟨"verbose", .bool, .vb false, .vb true⟩).bind
            (fun ts => (Options.parse []).map fun rest => ts ++ rest) ∧
    Options.emitField ⟨"dry_run", .bool, .vb false, .vb true⟩
        = .ok [.vs (Options.convert_name "dry_run")] ∧
    Options.emitField ⟨"remote_path", .str, .none, .vs "borg1"⟩
        = .ok [.vs (Options.convert_name "remote_path"), .vs "borg1"] ∧
    Options.emitField ⟨"lock_wait", .int, .none, .vi 5⟩
        = .ok [.vs (Options.convert_name "lock_wait"), .vi 5] ∧
    Options.emitField ⟨"exclude", .list, .none, .vl [.vs "a", .vs "b"]⟩
        = .ok ([Options.Val.vs "a", Options.Val.vs "b"].flatMap
            fun v => [.vs (Options.convert_name "exclude"), v]) ∧
    Options.emitField ⟨"bad", .other, .none, .vs "x"⟩
        = .error ("TypeError: Unrecognized flag type for \"" ++ "bad" ++ "\"") :=
  ⟨C5_parse_tokens.1 _ (by decide),
   C5_parse_tokens.2.1 ⟨"verbose", .bool, .vb false, .vb true⟩ [],
   C5_parse_tokens.2.2.1 "dry_run" false true (by decide),
   C5_parse_tokens.2.2.2.1 "remote_path" .none "borg1" (by decide),
   C5_parse_tokens.2.2.2.2.1 "lock_wait" .none 5 (by decide),
   C5_parse_tokens.2.2.2.2.2.1 "exclude" .none [.vs "a", .vs "b"] (by decide),
   C5_parse_tokens.2.2.2.2.2.2 "bad" .none (.vs "x") (by decide) (by decide)⟩

/-- C6: the spec says a single string given for any declared list field is
coerced to a one-element list.  This holds for `exclude` and `pattern` on
the exclusion options and `exclude_if_present` on the exclusion-input
options, but `CommonOptions.__init__` tests `debug_topic` and then
coerces the undeclared attribute `exclude`, so a string `debug_topic`
raises `AttributeError` instead — evaluated here at the concrete inputs. -/
theorem C6_single_string_coercion :
    Options.commonInit [("debug_topic", .vs "ssh")]
        = .error "AttributeError: exclude" ∧
    Options.initValue (Options.exclusionInit [("exclude", .vs "a")]) "exclude"
        = some (.vl [.vs "a"]) ∧
    Options.initValue (Options.exclusionInit [("pattern", .vs "b")]) "pattern"
        = some (.vl [.vs "b"]) ∧
    Options.initValue
        (Options.exclusionInputInit [("exclude_if_present", .vs "c")])
        "exclude_if_present"
        = some (.vl [.vs "c"]) := by
  refine ⟨by decide, by decide, by decide, by decide⟩

/-- C7 counterexample: `"00000"` is not a four-digit string, yet
construction succeeds, because `re.match(r"^[0-9]{4}", ...)` only anchors
the start: any string whose first four characters are digits passes. -/
theorem C7_counterexample_umask_five_digits_accepted :
    (Options.commonInit [("umask", .vs "00000")]).isOk = true ∧
    ("00000" : String).length ≠ 4 := by
  refine ⟨by decide, by decide⟩

/-- Shape of `CommonOptions.__init__` when only `umask` is supplied: the
check fires only for a truthy value whose first four characters are not
all digits. -/
theorem commonInit_umask_shape (s : String) :
    Options.commonInit [("umask", Options.Val.vs s)]
      = if s = "" ∨ Options.matchFourDigits s then
          .ok (Options.applyKwargs Options.commonFields [("umask", Options.Val.vs s)])
        else .error "ValueError: umask must be in format 0000 permission code, eg: 0077" := by
  have hdt : Options.getattrF
      (Options.applyKwargs Options.commonFields [("umask", Options.Val.vs s)])
      "debug_topic" = .ok Options.Val.none := by
    simp [Options.applyKwargs, Options.commonFields, Options.mkField, Options.getattrF]
  have hum : Options.getattrF
      (Options.applyKwargs Options.commonFields [("umask", Options.Val.vs s)])
      "umask" = .ok (Options.Val.vs s) := by
    simp [Options.applyKwargs, Options.commonFields, Options.mkField, Options.getattrF]
  simp only [Options.commonInit, hdt, hum, Except.bind, Bind.bind, Options.isStr,
    Options.truthy, Pure.pure, Except.pure]
  by_cases hs : s = ""
  · simp [hs]
  · by_cases hm : Options.matchFourDigits s <;> simp [hs, hm]

/-- Characterization of the anchored-start regex test. -/
theorem matchFourDigits_iff (s : String) :
    Options.matchFourDigits s = true
      ↔ 4 ≤ s.data.length ∧ ∀ c ∈ s.data.take 4, c.isDigit = true := by
  rcases hd : s.data with _ | ⟨a, _ | ⟨b, _ | ⟨c, _ | ⟨d, rest⟩⟩⟩⟩ <;>
    simp only [Options.matchFourDigits, hd] <;>
      first
        | (simp <;> omega)
        | simp [Nat.succ_le_succ, List.take, and_assoc]

/-- C7 amended: with a string `umask`, construction raises the
format-validation `ValueError` exactly when the value is non-empty and its
first four characters are not all ASCII digits; every string with a
four-digit prefix — of any length — is accepted, as is the empty string. -/
theorem C7_umask_prefix_check (s : String) :
    ((Options.commonInit [("umask", Options.Val.vs s)]).isOk = true
      ↔ (s = "" ∨ (4 ≤ s.data.length ∧ ∀ c ∈ s.data.take 4, c.isDigit = true))) ∧
    (¬ (s = "" ∨ (4 ≤ s.data.length ∧ ∀ c ∈ s.data.take 4, c.isDigit = true)) →
      Options.commonInit [("umask", Options.Val.vs s)]
        = .error "ValueError: umask must be in format 0000 permission code, eg: 0077") := by
  rw [commonInit_umask_shape]
  constructor
  · by_cases hs : s = ""
    · rw [if_pos (Or.inl hs)]
      exact ⟨fun _ => Or.inl hs, fun _ => rfl⟩
    · by_cases hm : Options.matchFourDigits s
      · have hc := (matchFourDigits_iff s).mp hm
        rw [if_pos (Or.inr hm)]
        exact ⟨fun _ => Or.inr hc, fun _ => rfl⟩
      · rw [if_neg (fun h => h.elim hs hm)]
        refine ⟨fun h => absurd h (by decide), fun h => ?_⟩
        rcases h with h | h
        · exact absurd h hs
        · exact absurd ((matchFourDigits_iff s).mpr h) hm
  · intro h
    have hs : ¬ s = "" := fun h1 => h (Or.inl h1)
    have hm : ¬ Options.matchFourDigits s = true := by
      intro hmm
      exact h (Or.inr ((matchFourDigits_iff s).mp hmm))
    rw [if_neg (fun hor => hor.elim hs hm)]

/-- C7 witness: the amended rejection clause applied at the concrete
non-digit-prefixed value `"12ab"`. -/
theorem C7_umask_prefix_witness :
    Options.commonInit [("umask", Options.Val.vs "12ab")]
      = .error "ValueError: umask must be in format 0000 permission code, eg: 0077" :=
  (C7_umask_prefix_check "12ab").2 (by decide)

/-- C8 counterexample: with capture options requesting minimum severity
`"error"`, the attached list-channel handler is built with the fixed
`INFO` level, and a record at severity `info` — strictly below the
requested minimum — is still collected. -/
theorem C8_counterexample_severity_not_from_options :
    (Capture.callCapture Capture.world0
        { log_lvl := "error", list_show := true }).cap.list_capture
      = some (Capture.PersistantHandler.init false) ∧
    (Capture.PersistantHandler.callHandler (Capture.PersistantHandler.init false)
        { levelno := Capture.levelNum "info", msg := "hello" }).records = ["hello"] ∧
    Capture.levelNum "info" < Capture.levelNum "error" := by
  refine ⟨rfl, by decide, by decide⟩

/-- C8 amended: the record-collecting handler attached to the list channel
is constructed from the JSON flag alone; its minimum severity is the fixed
`INFO` value (20) for every capture-option value, the `log_lvl` field
never being consulted; a record is collected exactly when its severity is
at least `INFO` and its formatted text is non-empty. -/
theorem C8_handler_filters_at_fixed_info :
    (∀ (w : Capture.World) (opts : Capture.OutputOptions),
        opts.list_show = true →
        (Capture.callCapture w opts).cap.list_capture
          = some (Capture.PersistantHandler.init opts.list_json)) ∧
    (∀ json : Bool,
        (Capture.PersistantHandler.init json).level = Capture.levelNum "info") ∧
    (∀ (json : Bool) (rec : Capture.LogRecord),
        (Capture.PersistantHandler.callHandler
            (Capture.PersistantHandler.init json) rec).records
          = if Capture.levelNum "info" ≤ rec.levelno
              ∧ (if json then Capture.PersistantHandler.jsonFormat rec
                 else Py.rstripS rec.msg) ≠ ""
            then [if json then Capture.PersistantHandler.jsonFormat rec
                  else Py.rstripS rec.msg]
            else []) := by
  refine ⟨?_, fun _ => rfl, ?_⟩
  · intro w opts h
    simp [Capture.callCapture, h]
  · intro json rec
    cases json <;>
      simp only [Capture.PersistantHandler.callHandler,
        Capture.PersistantHandler.init, Capture.PersistantHandler.emit,
        Capture.levelNum, if_false, if_true] <;>
      split_ifs <;> simp_all

/-- C8 witness: the amended theorem's attachment clause applied to the
concrete state and options (`log_lvl = "debug"`, list channel on). -/
theorem C8_handler_filters_witness :
    (Capture.callCapture Capture.world0
        { log_lvl := "debug", list_show := true }).cap.list_capture
      = some (Capture.PersistantHandler.init false) :=
  C8_handler_filters_at_fixed_info.1 Capture.world0
    { log_lvl := "debug", list_show := true } rfl

-- sanity checks on the buffer model (traced against the Python source)
example : Capture.ListStringIO.processPieces "abc" = ["abc"] := by decide
example : Capture.ListStringIO.processPieces "a \nb" = ["a\n", "b"] := by decide
example : Capture.ListStringIO.processPieces "x\r\n" = ["x\n", "\n"] := by decide
example :
    (Capture.ListStringIO.write (Capture.ListStringIO.write .init "abc") "def\n").values
      = ["abcdef\n"] := by decide
example : (Capture.ListStringIO.write .init "\n").values = ["\n"] := by decide

/-- Head of a `dropWhile` result never satisfies the dropped predicate. -/
theorem head?_dropWhile_not (p : Char → Bool) (l : List Char) :
    ∀ c, (l.dropWhile p).head? = some c → p c = false := by
  induction l with
  | nil => intro c h; simp [List.dropWhile] at h
  | cons a rest ih =>
    intro c h
    by_cases hp : p a
    · rw [List.dropWhile_cons] at h
      simp only [hp, if_true] at h
      exact ih c h
    · rw [List.dropWhile_cons, if_neg hp] at h
      have hac : a = c := by simpa using h
      rw [← hac]
      simpa using hp

/-- An rstripped list carries no trailing whitespace. -/
theorem rstrip_noTrailWs (v : List Char) :
    Capture.ListStringIO.noTrailWs (Py.rstrip v) = true := by
  unfold Capture.ListStringIO.noTrailWs Py.rstrip
  rw [List.getLast?_reverse]
  cases h : (v.reverse.dropWhile Py.isSpace).head? with
  | none => rfl
  | some c =>
    have hc := head?_dropWhile_not Py.isSpace v.reverse c h
    show (!Py.isSpace c) = true
    rw [hc]
    rfl

/-- An rstripped list never ends with a newline. -/
theorem rstrip_getLast_ne_newline (v : List Char) :
    (Py.rstrip v).getLast? ≠ some '\n' := by
  intro h
  have h2 := rstrip_noTrailWs v
  unfold Capture.ListStringIO.noTrailWs at h2
  rw [h] at h2
  exact absurd h2 (by decide)

/-- Closed form of the per-piece transform. -/
theorem procLine_eq (v : List Char) :
    Capture.ListStringIO.procLine v
      = Py.rstrip v ++ (if v.getLast? = some '\n' then ['\n'] else []) := by
  unfold Capture.ListStringIO.procLine
  by_cases h : v.getLast? = some '\n' <;> simp [h]

/-- Every kept piece is a good line: non-empty and with no trailing
whitespace before its optional terminating newline. -/
theorem procKeep_good (v : List Char) (l : String)
    (h : Capture.ListStringIO.procKeep v = some l) :
    Capture.ListStringIO.goodElem l := by
  unfold Capture.ListStringIO.procKeep at h
  by_cases hnv : (Capture.ListStringIO.procLine v).isEmpty
  · simp [hnv] at h
  · rw [if_neg hnv] at h
    obtain rfl : String.mk (Capture.ListStringIO.procLine v) = l := Option.some.inj h
    constructor
    · intro hc
      exact hnv (by simp [show Capture.ListStringIO.procLine v = [] from hc])
    · unfold Capture.ListStringIO.bodyOf
      by_cases hv : v.getLast? = some '\n'
      · have hp : (String.mk (Capture.ListStringIO.procLine v)).data
            = Py.rstrip v ++ ['\n'] := by simp [procLine_eq, hv]
        rw [hp, List.getLast?_concat]
        simp only [if_true, List.dropLast_concat]
        exact rstrip_noTrailWs v
      · have hp : (String.mk (Capture.ListStringIO.procLine v)).data
            = Py.rstrip v := by simp [procLine_eq, hv]
        rw [hp]
        rw [if_neg (rstrip_getLast_ne_newline v)]
        exact rstrip_noTrailWs v

/-- Every element of the processed pieces is a good line. -/
theorem processPieces_good (s : String) :
    ∀ l ∈ Capture.ListStringIO.processPieces s, Capture.ListStringIO.goodElem l := by
  intro l hl
  unfold Capture.ListStringIO.processPieces at hl
  rcases List.mem_filterMap.mp hl with ⟨v, _, hkeep⟩
  exact procKeep_good v l hkeep

set_option maxHeartbeats 1000000 in
/-- When every line break in the input is `\n`, every piece produced by
the keepends splitter — except possibly the last — ends with `\n`. -/
theorem splitKeep_go_sep (acc cs : List Char) :
    (∀ c ∈ cs, Py.isLineBreak c = true → c = '\n') →
    ∀ p ∈ (Py.splitLinesKeep.go acc cs).dropLast, p.getLast? = some '\n' := by
  induction acc, cs using Py.splitLinesKeep.go.induct with
  | case1 acc hacc =>
    intro _ p hp
    rw [Py.splitLinesKeep.go.eq_1, if_pos hacc] at hp
    simp at hp
  | case2 acc hacc =>
    intro _ p hp
    rw [Py.splitLinesKeep.go.eq_1, if_neg hacc] at hp
    simp at hp
  | case3 acc rest ih =>
    intro ht
    exact absurd (ht '\r' (by simp) (by decide)) (by decide)
  | case4 acc c rest hne hbr ih =>
    intro ht
    have hc : c = '\n' := ht c (by simp) hbr
    subst hc
    have hgo : Py.splitLinesKeep.go acc ('\n' :: rest)
        = (acc.reverse ++ ['\n']) :: Py.splitLinesKeep.go [] rest := by
      rw [Py.splitLinesKeep.go.eq_3 _ _ _ (fun _ hc2 _ => absurd hc2 (by decide)),
        if_pos (by decide)]
    rw [hgo]
    intro p hp
    cases hM : Py.splitLinesKeep.go [] rest with
    | nil => rw [hM] at hp; simp at hp
    | cons m ms =>
      rw [hM] at hp
      rw [show ((acc.reverse ++ ['\n']) :: m :: ms).dropLast
          = (acc.reverse ++ ['\n']) :: (m :: ms).dropLast from rfl] at hp
      rcases List.mem_cons.mp hp with hp1 | hp1
      · rw [hp1]
        exact List.getLast?_concat _
      · exact ih (fun c hmem hbr2 => ht c (by simp [hmem]) hbr2) p (by rw [hM]; exact hp1)
  | case5 acc c rest hne hbr ih =>
    intro ht
    have hgo : Py.splitLinesKeep.go acc (c :: rest)
        = Py.splitLinesKeep.go (c :: acc) rest := by
      rw [Py.splitLinesKeep.go.eq_3 _ _ _ hne, if_neg hbr]
    rw [hgo]
    exact ih fun c2 hmem hbr2 => ht c2 (by simp [hmem]) hbr2

/-- After `\r`-normalization of a tame write, every line break is `\n`. -/
theorem crToNl_tame (s : String) (ht : Capture.ListStringIO.tame s) :
    ∀ c ∈ Py.crToNl s.data, Py.isLineBreak c = true → c = '\n' := by
  intro c hmem hbr
  rcases List.mem_map.mp hmem with ⟨c0, hc0, hmap⟩
  by_cases h0 : c0 = '\r'
  · rw [← hmap, h0]; rfl
  · rw [← hmap] at hbr ⊢
    simp only [h0, if_false] at hbr ⊢
    rcases ht c0 hc0 (by simpa [h0] using hbr) with h | h
    · simpa [h0]
    · exact absurd h h0

/-- A piece ending in `\n` is always kept, and its processed form ends in
`\n`. -/
theorem procKeep_of_newline (v : List Char) (hv : v.getLast? = some '\n') :
    Capture.ListStringIO.procKeep v = some (String.mk (Py.rstrip v ++ ['\n'])) := by
  unfold Capture.ListStringIO.procKeep
  rw [show Capture.ListStringIO.procLine v = Py.rstrip v ++ ['\n'] from by
    simp [procLine_eq, hv]]
  rw [if_neg (by simp)]

/-- Filtering the kept pieces preserves the all-but-last-end-in-newline
property: only the final piece can lack a newline, and only pieces
without a newline can be dropped. -/
theorem filterMap_procKeep_sep (L : List (List Char))
    (hsep : ∀ p ∈ L.dropLast, p.getLast? = some '\n') :
    ∀ l ∈ (L.filterMap Capture.ListStringIO.procKeep).dropLast,
      l.data.getLast? = some '\n' := by
  induction L with
  | nil => simp
  | cons p rest ih =>
    intro l hl
    cases hrest : rest with
    | nil =>
      subst hrest
      cases hk : Capture.ListStringIO.procKeep p <;>
        simp [List.filterMap_cons, hk] at hl
    | cons q qs =>
      subst hrest
      have hp : p.getLast? = some '\n' := hsep p (by simp)
      rw [List.filterMap_cons, procKeep_of_newline p hp] at hl
      cases hM : List.filterMap Capture.ListStringIO.procKeep (q :: qs) with
      | nil => rw [hM] at hl; simp at hl
      | cons m ms =>
        rw [hM] at hl
        rcases List.mem_cons.mp hl with h1 | h1
        · rw [h1]
          exact List.getLast?_concat _
        · refine ih (fun p2 hp2 => hsep p2 (List.mem_cons_of_mem _ hp2)) l ?_
          rw [hM]
          exact h1

/-- All elements except possibly the last of a processed tame write end
with a newline. -/
theorem processPieces_sep (s : String) (ht : Capture.ListStringIO.tame s) :
    ∀ l ∈ (Capture.ListStringIO.processPieces s).dropLast,
      l.data.getLast? = some '\n' :=
  filterMap_procKeep_sep _ (splitKeep_go_sep [] _ (crToNl_tame s ht))

/-- String concatenation acts as list concatenation on the data. -/
theorem string_data_append (a b : String) : (a ++ b).data = a.data ++ b.data := by
  cases a; cases b; rfl

/-- Writing when the stored sequence is empty or its last line is
newline-terminated simply appends the processed pieces. -/
theorem write_no_frag (st : Capture.ListStringIO) (s : String)
    (h : st.values = [] ∨
      ∃ l, st.values.getLast? = some l ∧ l.data.getLast? = some '\n') :
    (Capture.ListStringIO.write st s).values
      = st.values ++ Capture.ListStringIO.processPieces s := by
  cases hp : Capture.ListStringIO.processPieces s with
  | nil => simp [Capture.ListStringIO.write, hp]
  | cons p ps =>
    cases hl : st.values.getLast? with
    | none => simp [Capture.ListStringIO.write, hp, hl]
    | some last =>
      rcases h with h1 | ⟨l, hl2, hnl⟩
      · rw [h1] at hl; simp at hl
      · rw [hl] at hl2
        obtain rfl : l = last := (Option.some.inj hl2).symm
        simp [Capture.ListStringIO.write, hp, hl, hnl]

/-- Writing when the stored sequence ends in an unterminated fragment
merges the first processed piece into that fragment. -/
theorem write_frag (st : Capture.ListStringIO) (s : String)
    (frag p : String) (ps : List String)
    (hl : st.values.getLast? = some frag)
    (hnl : frag.data.getLast? ≠ some '\n')
    (hp : Capture.ListStringIO.processPieces s = p :: ps) :
    (Capture.ListStringIO.write st s).values
      = st.values.dropLast ++ (frag ++ p) :: ps := by
  simp [Capture.ListStringIO.write, hp, hl, hnl]

/-- Merging a processed piece into a good unterminated fragment yields a
good line. -/
theorem merge_good (frag p : String)
    (hg : Capture.ListStringIO.goodElem frag)
    (hnl : frag.data.getLast? ≠ some '\n')
    (hgp : Capture.ListStringIO.goodElem p) :
    Capture.ListStringIO.goodElem (frag ++ p) := by
  obtain ⟨hf1, hf2⟩ := hg
  obtain ⟨hp1, hp2⟩ := hgp
  have hdata := string_data_append frag p
  constructor
  · rw [hdata]
    intro hc
    exact hp1 (List.append_eq_nil.mp hc).2
  · unfold Capture.ListStringIO.bodyOf at hf2 hp2 ⊢
    rw [hdata]
    by_cases hpn : p.data.getLast? = some '\n'
    · have hlast : (frag.data ++ p.data).getLast? = some '\n' := by
        rw [List.getLast?_append, hpn]; rfl
      rw [if_pos hlast, List.dropLast_append_of_ne_nil _ hp1]
      rw [if_pos hpn] at hp2
      cases hql : p.data.dropLast.getLast? with
      | none =>
        rw [List.getLast?_eq_none_iff.mp hql, List.append_nil]
        rw [if_neg hnl] at hf2
        exact hf2
      | some c =>
        unfold Capture.ListStringIO.noTrailWs at hp2 ⊢
        rw [List.getLast?_append, hql]
        rw [hql] at hp2
        simpa using hp2
    · have hlast : (frag.data ++ p.data).getLast? = p.data.getLast? := by
        rw [List.getLast?_append]
        cases hq : p.data.getLast? with
        | none => exact absurd (List.getLast?_eq_none_iff.mp hq) hp1
        | some c => rfl
      rw [if_neg (by rw [hlast]; exact hpn)]
      rw [if_neg hpn] at hp2
      unfold Capture.ListStringIO.noTrailWs at hp2 ⊢
      rw [hlast]
      exact hp2

/-- One tame write preserves well-formedness of the stored sequence. -/
theorem write_preserves_WF (st : Capture.ListStringIO) (s : String)
    (hw : Capture.ListStringIO.WFvalues st.values)
    (ht : Capture.ListStringIO.tame s) :
    Capture.ListStringIO.WFvalues (Capture.ListStringIO.write st s).values := by
  obtain ⟨hgood, hsep⟩ := hw
  cases hp : Capture.ListStringIO.processPieces s with
  | nil =>
    have heq : (Capture.ListStringIO.write st s).values = st.values := by
      simp [Capture.ListStringIO.write, hp]
    rw [heq]
    exact ⟨hgood, hsep⟩
  | cons p ps =>
    have hpg : ∀ l ∈ p :: ps, Capture.ListStringIO.goodElem l :=
      hp ▸ processPieces_good s
    have hps : ∀ l ∈ (p :: ps).dropLast, l.data.getLast? = some '\n' :=
      hp ▸ processPieces_sep s ht
    cases hl : st.values.getLast? with
    | none =>
      have hnil : st.values = [] := List.getLast?_eq_none_iff.mp hl
      have heq : (Capture.ListStringIO.write st s).values = p :: ps := by
        rw [write_no_frag st s (Or.inl hnil), hp, hnil, List.nil_append]
      rw [heq]
      exact ⟨hpg, hps⟩
    | some last =>
      have hvne : st.values ≠ [] := by
        intro hc; rw [hc] at hl; simp at hl
      have hlast_eq : st.values.getLast hvne = last := by
        have h2 := List.getLast?_eq_getLast st.values hvne
        rw [hl] at h2
        exact (Option.some.inj h2).symm
      have hlast_mem : last ∈ st.values := hlast_eq ▸ List.getLast_mem hvne
      by_cases hnl : last.data.getLast? = some '\n'
      · have heq : (Capture.ListStringIO.write st s).values
            = st.values ++ (p :: ps) := by
          rw [write_no_frag st s (Or.inr ⟨last, hl, hnl⟩), hp]
        rw [heq]
        constructor
        · intro l hml
          rcases List.mem_append.mp hml with h1 | h1
          · exact hgood l h1
          · exact hpg l h1
        · intro l hml
          rw [List.dropLast_append_of_ne_nil _ (by simp)] at hml
          rcases List.mem_append.mp hml with h1 | h1
          · have hsplit := List.dropLast_append_getLast hvne
            rw [← hsplit] at h1
            rcases List.mem_append.mp h1 with h2 | h2
            · exact hsep l h2
            · have h3 : l = st.values.getLast hvne := by simpa using h2
              rw [h3, hlast_eq]
              exact hnl
          · exact hps l h1
      · have heq := write_frag st s last p ps hl hnl hp
        rw [heq]
        have hmerge := merge_good last p (hgood last hlast_mem) hnl (hpg p (by simp))
        constructor
        · intro l hml
          rcases List.mem_append.mp hml with h1 | h1
          · exact hgood l (List.dropLast_subset _ h1)
          · rcases List.mem_cons.mp h1 with h2 | h2
            · rw [h2]; exact hmerge
            · exact hpg l (List.mem_cons_of_mem _ h2)
        · intro l hml
          rw [List.dropLast_append_of_ne_nil _ (by simp)] at hml
          rcases List.mem_append.mp hml with h1 | h1
          · exact hsep l h1
          · cases hps' : ps with
            | nil =>
              rw [hps'] at h1
              simp at h1
            | cons q qs =>
              rw [hps'] at h1
              rcases List.mem_cons.mp h1 with h2 | h2
              · have hpn : p.data.getLast? = some '\n' := by
                  apply hps p
                  rw [hps']
                  exact List.mem_cons_self _ _
                rw [h2, string_data_append, List.getLast?_append, hpn]
                rfl
              · apply hps
                rw [hps']
                exact List.mem_cons_of_mem _ h2

/-- Carriage-return normalization is idempotent. -/
theorem crToNl_idem (cs : List Char) : Py.crToNl (Py.crToNl cs) = Py.crToNl cs := by
  unfold Py.crToNl
  rw [List.map_map]
  apply List.map_congr_left
  intro c _
  by_cases h : c = '\r' <;> simp [h]

/-- Writing pre-normalized text is the same as writing the raw text: each
write begins with `s.replace("\r", "\n")`. -/
theorem write_crToNl (st : Capture.ListStringIO) (s : String) :
    Capture.ListStringIO.write st (Py.crToNlS s) = Capture.ListStringIO.write st s := by
  have hpieces : Capture.ListStringIO.processPieces (Py.crToNlS s)
      = Capture.ListStringIO.processPieces s := by
    unfold Capture.ListStringIO.processPieces Py.crToNlS
    rw [show (String.mk (Py.crToNl s.data)).data = Py.crToNl s.data from rfl,
      crToNl_idem]
  unfold Capture.ListStringIO.write
  rw [hpieces]

/-- The processed pieces of a write, seen as character lists: the
normalized text is split keeping line ends, each piece is rstripped with
the newline re-appended, and pieces that become empty are dropped. -/
theorem processPieces_data_view (s : String) :
    (Capture.ListStringIO.processPieces s).map String.data
      = (Py.splitLinesKeep (Py.crToNl s.data)).filterMap fun v =>
          if (Py.rstrip v ++ (if v.getLast? = some '\n' then ['\n'] else [])) = []
          then Option.none
          else some (Py.rstrip v ++ (if v.getLast? = some '\n' then ['\n'] else [])) := by
  unfold Capture.ListStringIO.processPieces
  rw [List.map_filterMap]
  have hfun : ∀ v : List Char,
      Option.map String.data (Capture.ListStringIO.procKeep v)
        = if (Py.rstrip v ++ (if v.getLast? = some '\n' then ['\n'] else [])) = []
          then Option.none
          else some (Py.rstrip v ++ (if v.getLast? = some '\n' then ['\n'] else [])) := by
    intro v
    unfold Capture.ListStringIO.procKeep
    rw [procLine_eq]
    by_cases hv : (Py.rstrip v ++ (if v.getLast? = some '\n' then ['\n'] else [])) = []
    · rw [if_pos hv, if_pos (List.isEmpty_iff.mpr hv)]
      rfl
    · rw [if_neg hv, if_neg (fun hc => hv (List.isEmpty_iff.mp hc))]
      rfl
  rw [funext hfun]

/-- C9 counterexample: a write with no terminating newline stores the
incomplete fragment `"abc"` as the last element, and it is immediately
observable: `get()` returns it and `get_all()` contains it, before any
later write completes it. -/
theorem C9_counterexample_fragment_observable :
    (Capture.ListStringIO.get (Capture.ListStringIO.write .init "abc")).1
        = some "abc" ∧
    Capture.ListStringIO.get_all (Capture.ListStringIO.write .init "abc")
        = ["abc"] ∧
    ("abc" : String).data.getLast? ≠ some '\n' := by
  refine ⟨by decide, by decide, by decide⟩

/-- C9 amended: each write first normalizes every carriage return to a
newline; the normalized text is split into newline-preserving pieces, each
piece is stripped of trailing whitespace (the newline re-appended) and
dropped if it becomes empty; when the stored sequence is empty or ends
with a newline-terminated line, the pieces are appended; when it ends with
an unterminated fragment, the first piece is concatenated onto that
fragment in place and the rest are appended.  The fragment itself lives in
the stored sequence (it is observable through `get`/`get_all`) rather than
being held back. -/
theorem C9_write_pipeline :
    (∀ (st : Capture.ListStringIO) (s : String),
        Capture.ListStringIO.write st (Py.crToNlS s)
          = Capture.ListStringIO.write st s) ∧
    (∀ s : String,
        (Capture.ListStringIO.processPieces s).map String.data
          = (Py.splitLinesKeep (Py.crToNl s.data)).filterMap fun v =>
              if (Py.rstrip v ++ (if v.getLast? = some '\n' then ['\n'] else [])) = []
              then Option.none
              else some (Py.rstrip v ++ (if v.getLast? = some '\n' then ['\n'] else []))) ∧
    (∀ (st : Capture.ListStringIO) (s : String),
        (st.values = [] ∨
          ∃ l, st.values.getLast? = some l ∧ l.data.getLast? = some '\n') →
        (Capture.ListStringIO.write st s).values
          = st.values ++ Capture.ListStringIO.processPieces s) ∧
    (∀ (st : Capture.ListStringIO) (s : String) (frag p : String) (ps : List String),
        st.values.getLast? = some frag →
        frag.data.getLast? ≠ some '\n' →
        Capture.ListStringIO.processPieces s = p :: ps →
        (Capture.ListStringIO.write st s).values
          = st.values.dropLast ++ (frag ++ p) :: ps) :=
  ⟨write_crToNl, processPieces_data_view, write_no_frag, write_frag⟩

/-- C9 witness: the append and merge clauses applied at concrete buffer
states and writes. -/
theorem C9_write_pipeline_witness :
    (Capture.ListStringIO.write ⟨["x\n"], 0⟩ "ab").values
        = ["x\n"] ++ Capture.ListStringIO.processPieces "ab" ∧
    (Capture.ListStringIO.write ⟨["abc"], 0⟩ "def\n").values
        = (["abc"] : List String).dropLast ++ ("abc" ++ "def\n") :: [] :=
  ⟨C9_write_pipeline.2.2.1 ⟨["x\n"], 0⟩ "ab"
      (Or.inr ⟨"x\n", by decide, by decide⟩),
   C9_write_pipeline.2.2.2 ⟨["abc"], 0⟩ "def\n" "abc" "def\n" []
      (by decide) (by decide) (by decide)⟩

/-- Folding tame writes from a well-formed buffer keeps it well-formed. -/
theorem writes_fold_WF (writes : List String) :
    ∀ st : Capture.ListStringIO,
      Capture.ListStringIO.WFvalues st.values →
      (∀ s ∈ writes, Capture.ListStringIO.tame s) →
      Capture.ListStringIO.WFvalues
        ((writes.foldl Capture.ListStringIO.write st).values) := by
  induction writes with
  | nil => intro st hw _; exact hw
  | cons s rest ih =>
    intro st hw ht
    exact ih _ (write_preserves_WF st s hw (ht s (by simp)))
      fun s2 h2 => ht s2 (by simp [h2])

/-- C10 counterexample: writing a bare newline stores the element `"\n"`,
which is whitespace-only (its rstrip is empty), contradicting the claimed
"no element is empty or whitespace-only" invariant. -/
theorem C10_counterexample_whitespace_only_element :
    (Capture.ListStringIO.write .init "\n").values = ["\n"] ∧
    Py.rstripS "\n" = "" := by
  refine ⟨by decide, by decide⟩

/-- C10 amended: across every sequence of writes containing no line-break
characters other than `\n` and `\r`, the stored sequence satisfies: every
element is non-empty, every element except possibly the last ends with a
newline, and no element carries trailing whitespace before its optional
terminating newline.  (Whitespace-only elements consisting of just a
newline do occur, and writes containing exotic Python line boundaries such
as `\v` can leave non-final elements without a newline.) -/
theorem C10_buffer_invariant (writes : List String)
    (ht : ∀ s ∈ writes, Capture.ListStringIO.tame s) :
    Capture.ListStringIO.WFvalues
      ((writes.foldl Capture.ListStringIO.write Capture.ListStringIO.init).values) :=
  writes_fold_WF writes Capture.ListStringIO.init (by decide) ht

/-- C10 witness: the invariant theorem applied to a concrete write
sequence with trailing spaces, a carriage return, and an unterminated
fragment. -/
theorem C10_buffer_invariant_witness :
    Capture.ListStringIO.WFvalues
      (((["a \r", "b\n\n", "  ", "tail"] : List String).foldl
          Capture.ListStringIO.write Capture.ListStringIO.init).values) :=
  C10_buffer_invariant ["a \r", "b\n\n", "  ", "tail"] (by decide)
